import Mathlib

/-!
Verification development for the Edison document store and
section-reconciliation subsystem.

The Python sources embedded here are:
  * `edison/tools/text_tools.py`     (`TextAnalyzer.calculate_similarity`)
  * `edison/tools/document_tools.py` (`DocumentWriterTool`)
  * `edison/tools/document_storage.py` (`DocumentStorage`)

Modelling conventions:
  * Python `float` is modelled as `ℚ` (all arithmetic in the embedded code
    is ratios of machine integers; the bounds proved here are insensitive
    to rounding).
  * Python `dict` (insertion ordered) is modelled as an association list
    `List (key × value)`; insertion appends, update keeps the position.
  * Python exceptions are modelled with `Except PyError`.
  * Timestamps are opaque `Nat` values threaded in as a `now` argument.
  * `difflib.SequenceMatcher` (standard library, called with `isjunk=None`)
    is embedded in full, including the `autojunk` purge of popular
    elements; with `isjunk=None` the junk set `bjunk` is empty, so the two
    junk-extension loops of `find_longest_match` never fire and are
    omitted.
-/

namespace Edison

/-! ### Python string primitives

ASCII-scope models of `str.lower`, `str.strip`, `str.split()`,
`re.sub(r"\s+", " ", ·)`.  Python applies Unicode tables for these; the
model is exact on ASCII input, which covers every concrete input used in
the theorems below (the single non-ASCII input used, `é`, is unaffected
by `lower`/`strip`/`split`). -/

/-- Python whitespace (`\s` on ASCII): space, tab, newline, vertical tab,
form feed, carriage return. -/
def pyIsSpace (c : Char) : Bool :=
  c = ' ' ∨ c = '\t' ∨ c = '\n' ∨ c = Char.ofNat 11 ∨ c = Char.ofNat 12 ∨ c = '\r'

/-- `str.lower` on ASCII letters. -/
def pyLower (c : Char) : Char :=
  if 'A' ≤ c ∧ c ≤ 'Z' then Char.ofNat (c.toNat + 32) else c

/-- `str.strip()`: drop leading and trailing whitespace. -/
def pyStrip (l : List Char) : List Char :=
  ((l.dropWhile pyIsSpace).reverse.dropWhile pyIsSpace).reverse

/-- `re.sub(r"\s+", " ", ·)`: every maximal whitespace run becomes a
single space.  The `Bool` argument records whether the previous character
was part of a whitespace run. -/
def collapseWsAux : List Char → Bool → List Char
  | [], _ => []
  | c :: rest, prevSpace =>
    if pyIsSpace c then
      if prevSpace then collapseWsAux rest true
      else ' ' :: collapseWsAux rest true
    else c :: collapseWsAux rest false

def collapseWs (l : List Char) : List Char := collapseWsAux l false

/-- The text normalisation in `DocumentWriterTool._calculate_similarity`:
`re.sub(r"\s+", " ", text.lower().strip())`. -/
def pyNormalize (l : List Char) : List Char :=
  collapseWs (pyStrip (l.map pyLower))

/-- `str.split()` with no separator: maximal non-whitespace runs, no empty
tokens.  `cur` is the current word accumulated in reverse. -/
def pySplitAux : List Char → List Char → List (List Char)
  | [], cur => if cur.isEmpty then [] else [cur.reverse]
  | c :: rest, cur =>
    if pyIsSpace c then
      if cur.isEmpty then pySplitAux rest []
      else cur.reverse :: pySplitAux rest []
    else pySplitAux rest (c :: cur)

def pySplit (l : List Char) : List (List Char) := pySplitAux l []

/-! ### `difflib.SequenceMatcher` (isjunk=None)

`ratio()` is `2*M / T` where `M` is the total size of the matching blocks
computed by the recursive `get_matching_blocks` pass over
`find_longest_match`, and `T` is the sum of the two lengths (`1.0` when
both strings are empty). -/

/-- Positions (ascending) of `c` in `b`; the entry of `b2j`. -/
def positionsOf (b : List Char) (c : Char) : List Nat :=
  (List.range b.length).filter (fun j => b.get? j = some c)

/-- `b2j` with the `autojunk` purge: for `len(b) >= 200`, elements
occurring more than `len(b) // 100 + 1` times are "popular" and dropped
from the index (with `isjunk=None` nothing else is dropped). -/
def b2j (b : List Char) (c : Char) : List Nat :=
  let idxs := positionsOf b c
  if 200 ≤ b.length ∧ b.length / 100 + 1 < idxs.length then [] else idxs

/-- `dict.get(k, 0)` on an association list. -/
def lookupD (m : List (Nat × Nat)) (k : Nat) : Nat :=
  match m.find? (fun p => p.1 = k) with
  | some p => p.2
  | none => 0

/-- Inner loop of `find_longest_match` for a fixed `i`: walk the `b2j`
positions `js` of `a[i]` (already restricted to `[blo, bhi)`), building
`newj2len` and updating the running best `(besti, bestj, bestsize)`.
`j2len.get(j-1, 0)` in Python never finds the key `-1`, hence the `j = 0`
case yields run length `1`. -/
def flmInner (j2len : List (Nat × Nat)) (i : Nat) :
    List Nat → List (Nat × Nat) × Nat × Nat × Nat → List (Nat × Nat) × Nat × Nat × Nat
  | [], st => st
  | j :: js, (nj2l, bi, bj, bs) =>
    let k := (if j = 0 then 0 else lookupD j2len (j - 1)) + 1
    let nj2l' := (j, k) :: nj2l
    if bs < k then flmInner j2len i js (nj2l', i + 1 - k, j + 1 - k, k)
    else flmInner j2len i js (nj2l', bi, bj, bs)

/-- Outer loop of `find_longest_match` over `i ∈ [alo, ahi)`. -/
def flmOuter (a b : List Char) (blo bhi : Nat) :
    List Nat → List (Nat × Nat) × Nat × Nat × Nat → Nat × Nat × Nat
  | [], st => st.2
  | i :: is', (j2len, best) =>
    let js := (b2j b (a.getD i ' ')).filter (fun j => blo ≤ j ∧ j < bhi)
    let st' := flmInner j2len i js ([], best)
    flmOuter a b blo bhi is' (st'.1, st'.2)

/-- Backward extension loop:
`while besti > alo and bestj > blo and a[besti-1] == b[bestj-1]`. -/
def extendBack (a b : List Char) (alo blo : Nat) :
    Nat → Nat → Nat → Nat × Nat × Nat
  | 0, bj, bs => (0, bj, bs)
  | bi + 1, bj, bs =>
    if alo < bi + 1 ∧ blo < bj ∧ a.getD bi ' ' = b.getD (bj - 1) ' ' then
      extendBack a b alo blo bi (bj - 1) (bs + 1)
    else (bi + 1, bj, bs)

/-- Forward extension loop,
`while besti+bestsize < ahi and bestj+bestsize < bhi and a[..] == b[..]`,
driven by the remaining room `ahi - (besti + bestsize)`. -/
def extendFwdAux (a b : List Char) (bhi bi bj : Nat) : Nat → Nat → Nat
  | 0, bs => bs
  | r + 1, bs =>
    if bj + bs < bhi ∧ a.getD (bi + bs) ' ' = b.getD (bj + bs) ' ' then
      extendFwdAux a b bhi bi bj r (bs + 1)
    else bs

def extendFwd (a b : List Char) (ahi bhi bi bj bs : Nat) : Nat :=
  extendFwdAux a b bhi bi bj (ahi - (bi + bs)) bs

/-- `find_longest_match(alo, ahi, blo, bhi)` (isjunk=None, so the junk
extension loops are identities). -/
def findLongestMatch (a b : List Char) (alo ahi blo bhi : Nat) : Nat × Nat × Nat :=
  let best := flmOuter a b blo bhi (List.range' alo (ahi - alo)) ([], alo, blo, 0)
  let back := extendBack a b alo blo best.1 best.2.1 best.2.2
  (back.1, back.2.1, extendFwd a b ahi bhi back.1 back.2.1 back.2.2)

/-- Total size of matching blocks on the region
`a[alo:ahi] / b[blo:bhi]`, following the queue recursion of
`get_matching_blocks` (the sort and adjacent-merge steps do not change
the total size).  `fuel` bounds the recursion depth; each recursive call
strictly shrinks `ahi - alo` (see `matchedSizeF_fuel`), so any
`fuel ≥ ahi - alo` computes the limit value. -/
def matchedSizeF (a b : List Char) : Nat → Nat → Nat → Nat → Nat → Nat
  | 0, _, _, _, _ => 0
  | fuel + 1, alo, ahi, blo, bhi =>
    let m := findLongestMatch a b alo ahi blo bhi
    let i := m.1
    let j := m.2.1
    let k := m.2.2
    if k = 0 then 0
    else
      (if alo < i ∧ blo < j then matchedSizeF a b fuel alo i blo j else 0) + k +
        (if i + k < ahi ∧ j + k < bhi then matchedSizeF a b fuel (i + k) ahi (j + k) bhi else 0)

def matchedSize (a b : List Char) : Nat :=
  matchedSizeF a b (a.length + 1) 0 a.length 0 b.length

/-- `SequenceMatcher(None, a, b).ratio()`: `2*M/T`, and `1.0` when
`T = 0`. -/
def ratio (a b : List Char) : ℚ :=
  if a.length + b.length = 0 then 1
  else (2 * matchedSize a b : ℚ) / (a.length + b.length)

/-! ### Errors raised by the embedded code -/

inductive PyError where
  /-- Python `ZeroDivisionError`. -/
  | zeroDivision
  /-- `edison.errors.DocumentNotFoundError`. -/
  | documentNotFound
  /-- `edison.errors.StorageIOError`. -/
  | storageIoError
  deriving DecidableEq, Repr

/-- Equality of `Except` values is decidable (needed to evaluate the
embedded operations at concrete inputs by `decide`). -/
instance instDecEqExcept {ε α : Type} [DecidableEq ε] [DecidableEq α] :
    DecidableEq (Except ε α) := fun a b =>
  match a, b with
  | .ok x, .ok y =>
    if h : x = y then isTrue (by rw [h]) else isFalse (fun hc => h (Except.ok.inj hc))
  | .error x, .error y =>
    if h : x = y then isTrue (by rw [h]) else isFalse (fun hc => h (Except.error.inj hc))
  | .ok _, .error _ => isFalse (fun hc => Except.noConfusion hc)
  | .error _, .ok _ => isFalse (fun hc => Except.noConfusion hc)

/-! ### Similarity scorers -/

/-- `TextAnalyzer.calculate_similarity` (`text_tools.py:50`): `0.0` if
either input is falsy (empty), else the raw sequence-matching ratio. -/
def taCalculateSimilarity (t1 t2 : String) : ℚ :=
  if t1.data.isEmpty ∨ t2.data.isEmpty then 0
  else ratio t1.data t2.data

/-- `DocumentWriterTool._calculate_similarity` (`document_tools.py:59`).
Normalises both texts, blends the sequence ratio (weight `0.6`) with the
token-set overlap (weight `0.4`).  The token overlap divides by
`max(len(tokens1), len(tokens2))`, which raises `ZeroDivisionError` when
both token sets are empty. -/
def dwCalculateSimilarity (t1 t2 : String) : Except PyError ℚ :=
  let n1 := pyNormalize t1.data
  let n2 := pyNormalize t2.data
  let sim := ratio n1 n2
  let tok1 := (pySplit n1).dedup
  let tok2 := (pySplit n2).dedup
  if max tok1.length tok2.length = 0 then .error .zeroDivision
  else
    let tokenSim : ℚ := ((tok1.filter (· ∈ tok2)).length : ℚ) / max tok1.length tok2.length
    .ok (sim * (6 / 10) + tokenSim * (4 / 10))

/-! ### Data model (`edison/models.py`) -/

/-- `DocumentSection`.  `last_modified` and `context_tokens` are
`Optional` in the Pydantic model. -/
structure DocumentSection where
  title : String
  content : String
  version : Nat := 0
  lastModified : Option Nat := none
  contextTokens : Option Nat := none
  deriving DecidableEq, Repr

/-- `DocumentContent`.  `sections` is an insertion-ordered dict, and
`metadata` a list of `DocumentMetdataItem` key/value pairs. -/
structure DocumentContent where
  sections : List (String × DocumentSection) := []
  metadata : List (String × String) := []
  version : Nat := 0
  createdAt : Option Nat := none
  lastModified : Option Nat := none
  deriving DecidableEq, Repr

/-! ### Association-list operations for Python dicts -/

/-- `d[k]` read: first entry with the key (Python dicts have unique
keys). -/
def lookupEntry {β : Type} : List (String × β) → String → Option β
  | [], _ => none
  | (k', v) :: rest, k => if k' = k then some v else lookupEntry rest k

/-- `d[k] = v` write: update in place if the key is present (keeping its
position, as Python dicts do), else append. -/
def setEntry {β : Type} : List (String × β) → String → β → List (String × β)
  | [], k, v => [(k, v)]
  | (k', v') :: rest, k, v =>
    if k' = k then (k, v) :: rest else (k', v') :: setEntry rest k v

/-! ### Section matcher (`DocumentWriterTool._find_most_relevant_section`,
`document_tools.py:81`) -/

/-- The combined score of one existing section against the candidate:
`0.4 * title_similarity + 0.6 * content_similarity`. -/
def combinedScore (sec : DocumentSection) (title content : String) : Except PyError ℚ := do
  let ts ← dwCalculateSimilarity sec.title title
  let cs ← dwCalculateSimilarity sec.content content
  pure (ts * (4 / 10) + cs * (6 / 10))

/-- All combined scores of a section list, in iteration order. -/
def combinedScores : List (String × DocumentSection) → String → String → Except PyError (List ℚ)
  | [], _, _ => .ok []
  | p :: rest, title, content => do
    let q ← combinedScore p.2 title content
    let qs ← combinedScores rest title content
    pure (q :: qs)

/-- The loop of `_find_most_relevant_section`: update the best match when
`combined_score > best_score and combined_score > 0.7`. -/
def fmrsLoop (title content : String) :
    List (String × DocumentSection) → Option String × ℚ → Except PyError (Option String × ℚ)
  | [], st => .ok st
  | (sid, sec) :: rest, (bm, bs) => do
    let score ← combinedScore sec title content
    if bs < score ∧ 7 / 10 < score then fmrsLoop title content rest (some sid, score)
    else fmrsLoop title content rest (bm, bs)

def findMostRelevantSection (doc : DocumentContent) (title content : String) :
    Except PyError (Option String × ℚ) :=
  fmrsLoop title content doc.sections (none, 0)

/-- Pure selection loop over precomputed `(section_id, score)` pairs;
`fmrsLoop` coincides with it whenever scoring succeeds (see
`fmrsLoop_eq_selLoop`). -/
def selLoop : List (String × ℚ) → Option String × ℚ → Option String × ℚ
  | [], st => st
  | (sid, q) :: rest, (bm, bs) =>
    if bs < q ∧ 7 / 10 < q then selLoop rest (some sid, q)
    else selLoop rest (bm, bs)

/-! ### Storage (`edison/tools/document_storage.py`)

The JSON record written by `save_document` mirrors `DocumentContent`
field for field, and `json.dump`/`json.load` round-trip it; the record
is therefore modelled as the `DocumentContent` value itself, and a file
whose text does not parse (in particular a truncated, partially written
file) as `.invalid`. -/

inductive FileData where
  /-- Well-formed record, as written by a completed `save_document`. -/
  | record (doc : DocumentContent)
  /-- Unparseable contents: corrupt or partially written file.  A file
  freshly truncated by `open("w")` is in this state. -/
  | invalid
  deriving DecidableEq, Repr

/-- The storage directory: file name → contents. -/
abbrev FS := List (String × FileData)

/-- The in-memory cache `DocumentWriterTool.documents`. -/
abbrev Cache := List (String × DocumentContent)

/-- `DocumentStorage._sanitize_doc_id` (`document_storage.py:53`):
`c if c.isalnum() or c in "-_ " else "_"`.  `str.isalnum` is the
*Unicode* predicate; `pyIsAlnum` models it exactly on code points below
`0x100` (ASCII plus Latin-1).  No theorem below evaluates it above that
range. -/
def pyIsAlnum (c : Char) : Bool :=
  ('0' ≤ c ∧ c ≤ '9') ∨ ('A' ≤ c ∧ c ≤ 'Z') ∨ ('a' ≤ c ∧ c ≤ 'z') ∨
    (0xA0 ≤ c.toNat ∧ c.toNat ≤ 0xFF ∧
      (c.toNat = 0xAA ∨ c.toNat = 0xB2 ∨ c.toNat = 0xB3 ∨ c.toNat = 0xB5 ∨
        c.toNat = 0xB9 ∨ c.toNat = 0xBA ∨ (0xBC ≤ c.toNat ∧ c.toNat ≤ 0xBE) ∨
        (0xC0 ≤ c.toNat ∧ c.toNat ≤ 0xFF ∧ c.toNat ≠ 0xD7 ∧ c.toNat ≠ 0xF7)))

def keepChar (c : Char) : Bool := pyIsAlnum c ∨ c = '-' ∨ c = '_' ∨ c = ' '

def sanitizeDocId (docId : String) : String :=
  ⟨docId.data.map (fun c => if keepChar c then c else '_')⟩

/-- The transformation the spec claims (`[A-Za-z0-9-_ ]` kept, everything
else replaced by `_`).  Stated from the spec wording, for comparison
with `sanitizeDocId`. -/
def specSanitizeDocId (docId : String) : String :=
  ⟨docId.data.map (fun c =>
    if ('A' ≤ c ∧ c ≤ 'Z') ∨ ('a' ≤ c ∧ c ≤ 'z') ∨ ('0' ≤ c ∧ c ≤ '9') ∨
        c = '-' ∨ c = '_' ∨ c = ' '
      then c else '_')⟩

/-- `DocumentStorage._get_doc_path`: `storage_dir / f"{safe_id}.json"`
(the directory part is constant and omitted). -/
def docPath (docId : String) : String := sanitizeDocId docId ++ ".json"

/-- The body of `save_document`'s `with doc_path.open("w") as f:` block,
split into its two observable filesystem states: `open("w")` first
truncates the file (an empty file does not parse), then `json.dump`
writes the full record. -/
def saveTruncate (fs : FS) (docId : String) : FS :=
  setEntry fs (docPath docId) .invalid

def saveWrite (fs : FS) (docId : String) (doc : DocumentContent) : FS :=
  setEntry fs (docPath docId) (.record doc)

/-- A completed, successful `save_document`. -/
def saveDocument (fs : FS) (docId : String) (doc : DocumentContent) : FS :=
  saveWrite (saveTruncate fs docId) docId doc

/-- Outcome of the underlying write in `save_document`. -/
inductive WriteOutcome where
  | ok
  /-- `json.dump` (or the write it performs) raised after `open("w")`
  had already truncated the file. -/
  | failAfterTruncate
  deriving DecidableEq, Repr

/-- `save_document` with an explicit outcome for the underlying write:
on failure the `except` clause raises `StorageIOError` and the file is
left in whatever state the interrupted write produced. -/
def saveDocumentRun (fs : FS) (docId : String) (doc : DocumentContent) :
    WriteOutcome → FS × Except PyError Unit
  | .ok => (saveDocument fs docId doc, .ok ())
  | .failAfterTruncate => (saveTruncate fs docId, .error .storageIoError)

/-- `load_document` (`document_storage.py:125`): `None` when no record
exists, `StorageIOError` when the record exists but does not parse. -/
def loadDocument (fs : FS) (docId : String) : Except PyError (Option DocumentContent) :=
  match lookupEntry fs (docPath docId) with
  | none => .ok none
  | some .invalid => .error .storageIoError
  | some (.record d) => .ok (some d)

/-- `str.rfind('.')`: index of the last `'.'`, if any. -/
def lastDotIdx : List Char → Option Nat
  | [] => none
  | c :: rest =>
    match lastDotIdx rest with
    | some i => some (i + 1)
    | none => if c = '.' then some 0 else none

/-- `pathlib.Path.stem`: the name minus its last suffix; the suffix is
the part from the last dot, and only counts when that dot is neither the
first nor the last character (`name[:i] if 0 < i < len(name)-1`). -/
def pathStem (p : String) : String :=
  match lastDotIdx p.data with
  | some i => if 0 < i ∧ i < p.data.length - 1 then ⟨p.data.take i⟩ else p
  | none => p

/-- The `metadata_dict` built by `list_documents`: a Python dict filled
from the metadata items in order (first occurrence fixes the position,
later duplicates overwrite the value). -/
def metadataMap (doc : DocumentContent) : List (String × String) :=
  doc.metadata.foldl (fun acc kv => setEntry acc kv.1 kv.2) []

/-- `list_documents` (`document_storage.py:189`): scan the files matched
by `glob("*.json")` — names ending in `.json` and, per glob semantics,
not starting with a dot — key the result by the file stem, and skip
records that fail to parse. -/
def listDocuments (fs : FS) : List (String × List (String × String)) :=
  fs.filterMap (fun entry =>
    if ".json".data <:+ entry.1.data ∧ entry.1.data.head? ≠ some '.' then
      match entry.2 with
      | .invalid => none
      | .record d => some (pathStem entry.1, metadataMap d)
    else none)

/-! ### Document writer facade (`edison/tools/document_tools.py`) -/

/-- `get_document` (`document_tools.py:53`): returns the cached document
or raises `DocumentNotFoundError`; it never returns `None`. -/
def getDocument (cache : Cache) (docId : String) : Except PyError DocumentContent :=
  match lookupEntry cache docId with
  | some doc => .ok doc
  | none => .error .documentNotFound

/-- `create_document` (`document_tools.py:43`): builds a fresh empty
`DocumentContent` (the `metadata` argument is ignored by the source),
stores it in the cache under `doc_id` and saves it, unconditionally. -/
def createDocument (now : Nat) (cache : Cache) (fs : FS) (docId : String) :
    Cache × FS × DocumentContent :=
  let doc : DocumentContent :=
    { sections := [], createdAt := some now, lastModified := some now }
  (setEntry cache docId doc, saveDocument fs docId doc, doc)

/-- Outcome of the `openai.chat.completions.create` call inside
`update_section`: either the merged text returned by the model, or any
exception (network failure, missing key, ...). -/
inductive LlmOutcome where
  | ok (text : String)
  | err
  deriving DecidableEq, Repr

/-- `update_section` (`document_tools.py:108`).

Faithful points worth noting:
  * `get_document` raises for an unknown `doc_id`, so the
    `doc = self.create_document(...)` branch guarding on a falsy result
    is unreachable (Pydantic models are always truthy) and the error
    propagates.
  * `section_id = matched_section_id or f"section_{len(doc.sections)+1}"`
    uses Python `or`, so an empty-string match also falls through to the
    positional id.
  * On LLM success the new title is the candidate's when the section is
    new and the existing section's otherwise; on any exception both the
    title and the content fall back to the candidate's.
  * `context_tokens` is the word count of the *candidate* content in
    both cases. -/
def updateSection (llm : LlmOutcome) (now : Nat) (cache : Cache) (fs : FS)
    (docId title content : String) :
    Except PyError (Cache × FS × DocumentSection) := do
  let doc ← getDocument cache docId
  let m ← findMostRelevantSection doc title content
  let sectionId :=
    match m.1 with
    | some s => if s = "" then "section_" ++ toString (doc.sections.length + 1) else s
    | none => "section_" ++ toString (doc.sections.length + 1)
  let contextTokens := (pySplit content.data).length
  let existing := lookupEntry doc.sections sectionId
  let (newTitle, newContent) :=
    match llm with
    | .ok text => (match existing with | some sec => sec.title | none => title, text)
    | .err => (title, content)
  let (sections', outSec) :=
    match existing with
    | some sec =>
      let sec' : DocumentSection :=
        { sec with
            title := newTitle
            content := newContent
            lastModified := some now
            version := sec.version + 1
            contextTokens := some contextTokens }
      (setEntry doc.sections sectionId sec', sec')
    | none =>
      let sec' : DocumentSection :=
        { title := newTitle
          content := newContent
          lastModified := some now
          contextTokens := some contextTokens }
      (doc.sections ++ [(sectionId, sec')], sec')
  let doc' : DocumentContent :=
    { doc with sections := sections', lastModified := some now, version := doc.version + 1 }
  pure (setEntry cache docId doc', saveDocument fs docId doc', outSec)

/-- The loop of `organize_sections` (`document_tools.py:187`).  The state
is `(organized, current_tokens, current_section)`; note the source
*assigns* `current_section = section_id` in both branches, it never
concatenates.  `section.context_tokens` may be `None`, in which case the
addition `current_tokens + section.context_tokens` raises `TypeError`;
that error is modelled by the `none` result. -/
def orgLoop (maxTokens : Nat) :
    List (String × DocumentSection) → List String × Nat × String →
      Option (List String × Nat × String)
  | [], st => some st
  | (sid, sec) :: rest, (org, curTok, curSec) =>
    match sec.contextTokens with
    | none => none
    | some ct =>
      if maxTokens < curTok + ct then
        orgLoop maxTokens rest
          (org ++ (if curSec = "" then [] else [curSec]), ct, sid)
      else
        orgLoop maxTokens rest (org, curTok + ct, sid)

/-- `organize_sections` on a document (after the `get_document` step);
`none` models the `TypeError` on a `None` token count. -/
def organizeSectionsDoc (doc : DocumentContent) (maxTokens : Nat) : Option (List String) :=
  match orgLoop maxTokens doc.sections ([], 0, "") with
  | none => none
  | some (org, _, curSec) => some (org ++ (if curSec = "" then [] else [curSec]))

/-- The full `organize_sections(doc_id, max_tokens)` facade operation. -/
def organizeSections (cache : Cache) (docId : String) (maxTokens : Nat) :
    Except PyError (Option (List String)) := do
  let doc ← getDocument cache docId
  pure (organizeSectionsDoc doc maxTokens)

/-! ### Proof infrastructure: loop invariants of `find_longest_match` -/
/-- Invariant of the best triple `(besti, bestj, bestsize)` tracked by
`find_longest_match` on the region `a[alo:ahi] / b[blo:bhi]`: either it
is still the initial `(alo, blo, 0)`, or it denotes a non-empty block
inside the region. -/
def BestInv (alo ahi blo bhi bi bj bs : Nat) : Prop :=
  (bi = alo ∧ bj = blo ∧ bs = 0) ∨
    (1 ≤ bs ∧ alo ≤ bi ∧ blo ≤ bj ∧ bi + bs ≤ ahi ∧ bj + bs ≤ bhi)

/-- Invariant of the `j2len` map entering the outer iteration at index
`i`: every recorded run ends inside `b[blo:·]` and is no longer than
either the `a`-side room `i - alo` or the `b`-side room `j + 1 - blo`. -/
def J2lInv (alo blo i : Nat) (m : List (Nat × Nat)) : Prop :=
  ∀ p ∈ m, blo ≤ p.1 ∧ p.2 + alo ≤ i ∧ p.2 + blo ≤ p.1 + 1

/-! ### Lemmas: the sequence-matching ratio is a well-formed similarity -/

theorem lookupD_zero_or_mem (m : List (Nat × Nat)) (k : Nat) :
    lookupD m k = 0 ∨ (k, lookupD m k) ∈ m := by
  unfold lookupD
  cases h : m.find? (fun p => p.1 = k) with
  | none => exact Or.inl rfl
  | some p =>
    right
    have hm := List.mem_of_find?_eq_some h
    have hp : p.1 = k := by simpa using List.find?_some h
    cases p with
    | mk p1 p2 => subst hp; exact hm

theorem flmInner_inv {alo ahi blo bhi i : Nat} (hi : alo ≤ i) (hi2 : i < ahi)
    {j2len : List (Nat × Nat)} (hj : J2lInv alo blo i j2len) :
    ∀ js nj2l bi bj bs,
      (∀ j ∈ js, blo ≤ j ∧ j < bhi) →
      J2lInv alo blo (i + 1) nj2l →
      BestInv alo ahi blo bhi bi bj bs →
      J2lInv alo blo (i + 1) (flmInner j2len i js (nj2l, bi, bj, bs)).1 ∧
        BestInv alo ahi blo bhi (flmInner j2len i js (nj2l, bi, bj, bs)).2.1
          (flmInner j2len i js (nj2l, bi, bj, bs)).2.2.1
          (flmInner j2len i js (nj2l, bi, bj, bs)).2.2.2 := by
  intro js
  induction js with
  | nil =>
    intro nj2l bi bj bs _ h2 h3
    exact ⟨h2, h3⟩
  | cons j js ih =>
    intro nj2l bi bj bs hjs h2 h3
    have hjmem : blo ≤ j ∧ j < bhi := hjs j (by simp)
    have hjs' : ∀ x ∈ js, blo ≤ x ∧ x < bhi := fun x hx => hjs x (by simp [hx])
    have hk : blo ≤ j ∧ ((if j = 0 then 0 else lookupD j2len (j - 1)) + 1) + alo ≤ i + 1 ∧
        ((if j = 0 then 0 else lookupD j2len (j - 1)) + 1) + blo ≤ j + 1 := by
      refine ⟨hjmem.1, ?_, ?_⟩ <;>
      · split
        · omega
        · rcases lookupD_zero_or_mem j2len (j - 1) with h0 | hmem
          · omega
          · have := hj _ hmem
            simp only at this
            omega
    have h2' : J2lInv alo blo (i + 1)
        ((j, (if j = 0 then 0 else lookupD j2len (j - 1)) + 1) :: nj2l) := by
      intro p hp
      rcases List.mem_cons.mp hp with h | h
      · subst h; exact hk
      · exact h2 p h
    simp only [flmInner]
    set k := (if j = 0 then 0 else lookupD j2len (j - 1)) + 1 with hkdef
    have hk1 : 1 ≤ k := by omega
    split
    case isTrue hlt =>
      apply ih _ _ _ _ hjs' h2'
      right
      refine ⟨hk1, by omega, by omega, by omega, by omega⟩
    case isFalse hlt =>
      exact ih _ _ _ _ hjs' h2' h3

theorem flmOuter_inv (a b : List Char) (alo ahi blo bhi : Nat) :
    ∀ n i j2len bi bj bs, alo ≤ i → i + n ≤ ahi →
      J2lInv alo blo i j2len →
      BestInv alo ahi blo bhi bi bj bs →
      ∀ r1 r2 r3, flmOuter a b blo bhi (List.range' i n) (j2len, bi, bj, bs) = (r1, r2, r3) →
        BestInv alo ahi blo bhi r1 r2 r3 := by
  intro n
  induction n with
  | zero =>
    intro i j2len bi bj bs _ _ _ hb r1 r2 r3 heq
    simp only [List.range', flmOuter, Prod.mk.injEq] at heq
    obtain ⟨rfl, rfl, rfl⟩ := heq
    exact hb
  | succ n ih =>
    intro i j2len bi bj bs h1 h2 hj hb r1 r2 r3 heq
    have hr : List.range' i (n + 1) = i :: List.range' (i + 1) n := rfl
    rw [hr] at heq
    simp only [flmOuter] at heq
    have hfilter : ∀ j ∈ (b2j b (a.getD i ' ')).filter (fun j => decide (blo ≤ j ∧ j < bhi)),
        blo ≤ j ∧ j < bhi := by
      intro j hjm
      have := (List.mem_filter.mp hjm).2
      simpa using this
    have hstep := flmInner_inv h1 (by omega) hj
      ((b2j b (a.getD i ' ')).filter (fun j => decide (blo ≤ j ∧ j < bhi)))
      [] bi bj bs hfilter (by intro p hp; simp at hp) hb
    exact ih (i + 1) _ _ _ _ (by omega) (by omega) hstep.1 hstep.2 r1 r2 r3 heq

theorem extendBack_inv (a b : List Char) (alo ahi blo bhi : Nat) :
    ∀ bi bj bs, BestInv alo ahi blo bhi bi bj bs →
      ∀ c1 c2 c3, extendBack a b alo blo bi bj bs = (c1, c2, c3) →
        BestInv alo ahi blo bhi c1 c2 c3 := by
  intro bi
  induction bi with
  | zero =>
    intro bj bs h c1 c2 c3 heq
    simp only [extendBack, Prod.mk.injEq] at heq
    obtain ⟨rfl, rfl, rfl⟩ := heq
    exact h
  | succ bi ih =>
    intro bj bs h c1 c2 c3 heq
    simp only [extendBack] at heq
    split at heq
    case isTrue hg =>
      obtain ⟨hg1, hg2, _⟩ := hg
      refine ih (bj - 1) (bs + 1) ?_ c1 c2 c3 heq
      rcases h with ⟨q1, _, _⟩ | ⟨q1, q2, q3, q4, q5⟩
      · exact absurd hg1 (by omega)
      · right
        refine ⟨by omega, by omega, by omega, by omega, by omega⟩
    case isFalse =>
      simp only [Prod.mk.injEq] at heq
      obtain ⟨rfl, rfl, rfl⟩ := heq
      exact h

theorem extendFwdAux_post (a b : List Char) (ahi bhi bi bj : Nat) :
    ∀ r bs, bi + bs + r ≤ ahi →
      bs ≤ extendFwdAux a b bhi bi bj r bs ∧
        bi + extendFwdAux a b bhi bi bj r bs ≤ ahi ∧
        (extendFwdAux a b bhi bi bj r bs ≠ bs →
          bj + extendFwdAux a b bhi bi bj r bs ≤ bhi ∧ 1 ≤ extendFwdAux a b bhi bi bj r bs) := by
  intro r
  induction r with
  | zero =>
    intro bs hr
    simp only [extendFwdAux]
    exact ⟨le_refl _, by omega, by intro h; exact absurd rfl h⟩
  | succ r ih =>
    intro bs hr
    simp only [extendFwdAux]
    split
    case isTrue hg =>
      obtain ⟨hg1, _⟩ := hg
      obtain ⟨p1, p2, p3⟩ := ih (bs + 1) (by omega)
      refine ⟨by omega, p2, ?_⟩
      intro _
      by_cases hEq : extendFwdAux a b bhi bi bj r (bs + 1) = bs + 1
      · rw [hEq]; exact ⟨by omega, by omega⟩
      · obtain ⟨q1, q2⟩ := p3 hEq
        exact ⟨q1, by omega⟩
    case isFalse =>
      exact ⟨le_refl _, by omega, by intro h; exact absurd rfl h⟩

theorem findLongestMatch_bounds (a b : List Char) (alo ahi blo bhi : Nat)
    (h1 : alo ≤ ahi) (h2 : blo ≤ bhi) :
    ∀ i j k, findLongestMatch a b alo ahi blo bhi = (i, j, k) →
      alo ≤ i ∧ blo ≤ j ∧ (k ≠ 0 → i + k ≤ ahi ∧ j + k ≤ bhi) := by
  intro i j k heq
  rcases hfl : flmOuter a b blo bhi (List.range' alo (ahi - alo)) ([], alo, blo, 0)
    with ⟨b1, b2, b3⟩
  have hbest : BestInv alo ahi blo bhi b1 b2 b3 :=
    flmOuter_inv a b alo ahi blo bhi (ahi - alo) alo [] alo blo 0 (le_refl _) (by omega)
      (by intro p hp; simp at hp) (Or.inl ⟨rfl, rfl, rfl⟩) b1 b2 b3 hfl
  rcases hbk : extendBack a b alo blo b1 b2 b3 with ⟨c1, c2, c3⟩
  have hback : BestInv alo ahi blo bhi c1 c2 c3 :=
    extendBack_inv a b alo ahi blo bhi b1 b2 b3 hbest c1 c2 c3 hbk
  simp only [findLongestMatch, hfl, hbk, extendFwd, Prod.mk.injEq] at heq
  obtain ⟨rfl, rfl, hk⟩ := heq
  have hpre : c1 + c3 + (ahi - (c1 + c3)) ≤ ahi := by
    rcases hback with ⟨q1, q2, q3⟩ | ⟨q1, q2, q3, q4, q5⟩ <;> omega
  have hfwd := extendFwdAux_post a b ahi bhi c1 c2 (ahi - (c1 + c3)) c3 hpre
  rcases hback with ⟨q1, q2, q3⟩ | ⟨q1, q2, q3, q4, q5⟩
  · refine ⟨by omega, by omega, ?_⟩
    intro hne
    by_cases hEq : extendFwdAux a b bhi c1 c2 (ahi - (c1 + c3)) c3 = c3
    · rw [← hk, hEq] at hne; omega
    · obtain ⟨w1, w2⟩ := hfwd.2.2 hEq
      subst hk
      exact ⟨hfwd.2.1, w1⟩
  · refine ⟨by omega, by omega, ?_⟩
    intro _
    subst hk
    by_cases hEq : extendFwdAux a b bhi c1 c2 (ahi - (c1 + c3)) c3 = c3
    · rw [hEq]; exact ⟨by omega, by omega⟩
    · exact ⟨hfwd.2.1, (hfwd.2.2 hEq).1⟩

theorem matchedSizeF_le (a b : List Char) :
    ∀ fuel alo ahi blo bhi, alo ≤ ahi → blo ≤ bhi →
      matchedSizeF a b fuel alo ahi blo bhi + alo ≤ ahi ∧
        matchedSizeF a b fuel alo ahi blo bhi + blo ≤ bhi := by
  intro fuel
  induction fuel with
  | zero => intro alo ahi blo bhi h1 h2; simp only [matchedSizeF]; omega
  | succ fuel ih =>
    intro alo ahi blo bhi h1 h2
    rcases hm : findLongestMatch a b alo ahi blo bhi with ⟨i, j, k⟩
    obtain ⟨hb1, hb2, hb3⟩ := findLongestMatch_bounds a b alo ahi blo bhi h1 h2 i j k hm
    simp only [matchedSizeF, hm]
    split
    case isTrue => omega
    case isFalse hk =>
      have hk' := hb3 hk
      have hL : (if alo < i ∧ blo < j then matchedSizeF a b fuel alo i blo j else 0) + alo ≤ i ∧
          (if alo < i ∧ blo < j then matchedSizeF a b fuel alo i blo j else 0) + blo ≤ j := by
        split
        case isTrue h => exact ih alo i blo j (by omega) (by omega)
        case isFalse => omega
      have hR : (if i + k < ahi ∧ j + k < bhi then
            matchedSizeF a b fuel (i + k) ahi (j + k) bhi else 0) + (i + k) ≤ ahi ∧
          (if i + k < ahi ∧ j + k < bhi then
            matchedSizeF a b fuel (i + k) ahi (j + k) bhi else 0) + (j + k) ≤ bhi := by
        split
        case isTrue h => exact ih (i + k) ahi (j + k) bhi (by omega) (by omega)
        case isFalse => omega
      omega

theorem extendBack_refl (a b : List Char) (alo blo bj bs : Nat) :
    extendBack a b alo blo alo bj bs = (alo, bj, bs) := by
  cases alo with
  | zero => rfl
  | succ n =>
    simp only [extendBack]
    rw [if_neg (fun h => absurd h.1 (lt_irrefl _))]

theorem flm_self (a b : List Char) (alo blo bhi : Nat) :
    findLongestMatch a b alo alo blo bhi = (alo, blo, 0) := by
  simp only [findLongestMatch, Nat.sub_self]
  have h0 : List.range' alo 0 = [] := rfl
  rw [h0]
  simp only [flmOuter]
  rw [extendBack_refl]
  simp [extendFwd, extendFwdAux]

theorem matchedSizeF_self (a b : List Char) (fuel alo blo bhi : Nat) :
    matchedSizeF a b fuel alo alo blo bhi = 0 := by
  cases fuel with
  | zero => rfl
  | succ f => simp [matchedSizeF, flm_self]

/-- The fuel in `matchedSizeF` is irrelevant once it dominates the
region size: each recursive call strictly shrinks `ahi - alo`, so any
two sufficient fuels compute the same value.  In particular the choice
`a.length + 1` in `matchedSize` computes the limit of the recursion. -/
theorem matchedSizeF_fuel (a b : List Char) :
    ∀ fuel fuel' alo ahi blo bhi, alo ≤ ahi → blo ≤ bhi →
      ahi - alo ≤ fuel → ahi - alo ≤ fuel' →
      matchedSizeF a b fuel alo ahi blo bhi = matchedSizeF a b fuel' alo ahi blo bhi := by
  intro fuel
  induction fuel with
  | zero =>
    intro fuel' alo ahi blo bhi h1 h2 hf hf'
    have : ahi = alo := by omega
    subst this
    rw [matchedSizeF_self, matchedSizeF_self]
  | succ fuel ih =>
    intro fuel' alo ahi blo bhi h1 h2 hf hf'
    by_cases heq : ahi = alo
    · subst heq
      rw [matchedSizeF_self, matchedSizeF_self]
    · cases fuel' with
      | zero => omega
      | succ f' =>
        rcases hm : findLongestMatch a b alo ahi blo bhi with ⟨i, j, k⟩
        obtain ⟨hb1, hb2, hb3⟩ := findLongestMatch_bounds a b alo ahi blo bhi h1 h2 i j k hm
        simp only [matchedSizeF, hm]
        split
        · rfl
        · rename_i hk
          obtain ⟨hik, hjk⟩ := hb3 hk
          congr 1
          congr 1
          · split
            · exact ih f' alo i blo j (by omega) (by omega) (by omega) (by omega)
            · rfl
          · split
            · exact ih f' (i + k) ahi (j + k) bhi (by omega) (by omega) (by omega) (by omega)
            · rfl

theorem matchedSize_le (a b : List Char) :
    matchedSize a b ≤ a.length ∧ matchedSize a b ≤ b.length := by
  have := matchedSizeF_le a b (a.length + 1) 0 a.length 0 b.length (by omega) (by omega)
  simpa [matchedSize] using this

theorem ratio_nonneg (a b : List Char) : 0 ≤ ratio a b := by
  unfold ratio
  split
  · norm_num
  · positivity

theorem ratio_le_one (a b : List Char) : ratio a b ≤ 1 := by
  unfold ratio
  split
  case isTrue => norm_num
  case isFalse h =>
    have hpos : (0 : ℚ) < (a.length : ℚ) + b.length := by
      have hn : 0 < a.length + b.length := Nat.pos_of_ne_zero h
      exact_mod_cast hn
    rw [div_le_one hpos]
    have hm := matchedSize_le a b
    have hn : 2 * matchedSize a b ≤ a.length + b.length := by omega
    exact_mod_cast hn

/-! ### Lemmas: the two similarity scorers -/

theorem taCalculateSimilarity_bounds (t1 t2 : String) :
    0 ≤ taCalculateSimilarity t1 t2 ∧ taCalculateSimilarity t1 t2 ≤ 1 := by
  unfold taCalculateSimilarity
  split
  · norm_num
  · exact ⟨ratio_nonneg _ _, ratio_le_one _ _⟩

theorem taCalculateSimilarity_empty (t1 t2 : String) (h : t1 = "" ∨ t2 = "") :
    taCalculateSimilarity t1 t2 = 0 := by
  rcases h with rfl | rfl <;> simp [taCalculateSimilarity]

theorem pySplitAux_eq_nil (l : List Char) :
    ∀ cur, pySplitAux l cur = [] ↔ (l.all pyIsSpace = true ∧ cur = []) := by
  induction l with
  | nil =>
    intro cur
    simp only [pySplitAux, List.all_nil, true_and]
    split
    case isTrue h => simp [List.isEmpty_iff.mp h]
    case isFalse h =>
      constructor
      · intro hc; simp at hc
      · intro hc; subst hc; simp at h
  | cons c rest ih =>
    intro cur
    simp only [pySplitAux, List.all_cons]
    by_cases hc : pyIsSpace c
    · rw [if_pos hc]
      by_cases hcur : cur.isEmpty
      · rw [if_pos hcur, ih []]
        simp [hc, List.isEmpty_iff.mp hcur]
      · rw [if_neg hcur]
        constructor
        · intro hcontra; simp at hcontra
        · intro ⟨_, hnil⟩
          subst hnil
          simp at hcur
    · rw [if_neg hc, ih (c :: cur)]
      constructor
      · intro ⟨_, hcontra⟩; simp at hcontra
      · intro ⟨hall, _⟩
        rw [Bool.and_eq_true] at hall
        exact absurd hall.1 hc

theorem pySplit_eq_nil (l : List Char) : pySplit l = [] ↔ l.all pyIsSpace = true := by
  rw [pySplit, pySplitAux_eq_nil]
  simp

theorem dwCalculateSimilarity_error_iff (t1 t2 : String) :
    dwCalculateSimilarity t1 t2 = .error .zeroDivision ↔
      pySplit (pyNormalize t1.data) = [] ∧ pySplit (pyNormalize t2.data) = [] := by
  simp only [dwCalculateSimilarity]
  split
  case isTrue h =>
    have h' := Nat.max_eq_zero_iff.mp h
    simp only [List.length_eq_zero, List.dedup_eq_nil] at h'
    simp [h'.1, h'.2]
  case isFalse h =>
    refine iff_of_false (by simp) ?_
    rintro ⟨h1, h2⟩
    rw [h1, h2] at h
    simp at h

theorem dwCalculateSimilarity_ok_bounds (t1 t2 : String) (r : ℚ)
    (h : dwCalculateSimilarity t1 t2 = .ok r) : 0 ≤ r ∧ r ≤ 1 := by
  simp only [dwCalculateSimilarity] at h
  split at h
  case isTrue => exact absurd h (by simp)
  case isFalse hc =>
    simp only [Except.ok.injEq] at h
    subst h
    have hr1 := ratio_nonneg (pyNormalize t1.data) (pyNormalize t2.data)
    have hr2 := ratio_le_one (pyNormalize t1.data) (pyNormalize t2.data)
    set L1 := (pySplit (pyNormalize t1.data)).dedup with hL1
    set L2 := (pySplit (pyNormalize t2.data)).dedup with hL2
    have hmax : 0 < max L1.length L2.length := Nat.pos_of_ne_zero hc
    have hmaxQ : (0 : ℚ) < ((max L1.length L2.length : Nat) : ℚ) := by exact_mod_cast hmax
    have hfil : (L1.filter (· ∈ L2)).length ≤ max L1.length L2.length :=
      le_trans (List.length_filter_le _ _) (le_max_left _ _)
    have htok0 : (0 : ℚ) ≤ ((L1.filter (· ∈ L2)).length : ℚ) / ((max L1.length L2.length : Nat) : ℚ) :=
      div_nonneg (by positivity) (le_of_lt hmaxQ)
    have htok1 : ((L1.filter (· ∈ L2)).length : ℚ) / ((max L1.length L2.length : Nat) : ℚ) ≤ 1 := by
      rw [div_le_one hmaxQ]
      exact_mod_cast hfil
    constructor <;> linarith

/-! ### Lemmas: the section matcher -/

theorem exBind_ok {ε α β : Type} (a : α) (f : α → Except ε β) :
    (Except.ok a : Except ε α) >>= f = f a := rfl

theorem exBind_error {ε α β : Type} (e : ε) (f : α → Except ε β) :
    (Except.error e : Except ε α) >>= f = Except.error e := rfl

theorem exMap_ok {ε α β : Type} (f : α → β) (a : α) :
    f <$> (Except.ok a : Except ε α) = Except.ok (f a) := rfl

theorem exMap_error {ε α β : Type} (f : α → β) (e : ε) :
    f <$> (Except.error e : Except ε α) = Except.error e := rfl

theorem exPure {ε α : Type} (a : α) : (pure a : Except ε α) = Except.ok a := rfl

theorem combinedScores_length (title content : String) :
    ∀ secs scores, combinedScores secs title content = .ok scores →
      scores.length = secs.length := by
  intro secs
  induction secs with
  | nil =>
    intro scores h
    simp only [combinedScores, Except.ok.injEq] at h
    subst h
    rfl
  | cons p rest ih =>
    intro scores h
    simp only [combinedScores] at h
    cases hq : combinedScore p.2 title content with
    | error e => rw [hq] at h; simp [exBind_error] at h
    | ok q =>
      rw [hq, exBind_ok] at h
      cases hqs : combinedScores rest title content with
      | error e => rw [hqs] at h; simp [exBind_error] at h
      | ok qs =>
        rw [hqs, exBind_ok, exPure] at h
        simp only [Except.ok.injEq] at h
        subst h
        simp [ih qs hqs]

theorem fmrsLoop_eq_selLoop (title content : String) :
    ∀ secs scores st, combinedScores secs title content = .ok scores →
      fmrsLoop title content secs st = .ok (selLoop ((secs.map Prod.fst).zip scores) st) := by
  intro secs
  induction secs with
  | nil =>
    intro scores st h
    simp only [combinedScores, Except.ok.injEq] at h
    subst h
    obtain ⟨bm, bs⟩ := st
    simp [fmrsLoop, selLoop]
  | cons p rest ih =>
    intro scores st h
    obtain ⟨sid, sec⟩ := p
    obtain ⟨bm, bs⟩ := st
    simp only [combinedScores] at h
    cases hq : combinedScore sec title content with
    | error e => rw [hq] at h; simp [exBind_error] at h
    | ok q =>
      rw [hq, exBind_ok] at h
      cases hqs : combinedScores rest title content with
      | error e => rw [hqs] at h; simp [exBind_error] at h
      | ok qs =>
        rw [hqs, exBind_ok, exPure] at h
        simp only [Except.ok.injEq] at h
        subst h
        simp only [fmrsLoop, hq, exBind_ok, List.map_cons, List.zip_cons_cons, selLoop]
        split
        case isTrue hc => exact ih qs (some sid, q) hqs
        case isFalse hc => exact ih qs (bm, bs) hqs

theorem selLoop_spec : ∀ (ps : List (String × ℚ)) (bm : Option String) (bs : ℚ),
    (selLoop ps (bm, bs) = (bm, bs) ∧ ∀ p ∈ ps, ¬(bs < p.2 ∧ 7 / 10 < p.2)) ∨
      (∃ j sid q, ps.get? j = some (sid, q) ∧ selLoop ps (bm, bs) = (some sid, q) ∧
        bs < q ∧ 7 / 10 < q ∧
        (∀ k p', ps.get? k = some p' → p'.2 ≤ q) ∧
        (∀ k p', k < j → ps.get? k = some p' → p'.2 < q)) := by
  intro ps
  induction ps with
  | nil =>
    intro bm bs
    left
    exact ⟨rfl, by simp⟩
  | cons hd rest ih =>
    intro bm bs
    obtain ⟨sid, q⟩ := hd
    by_cases hc : bs < q ∧ 7 / 10 < q
    · rcases ih (some sid) q with ⟨he, hnone⟩ | ⟨j', sid', q', hget, hres, hlt, h7, hall, hfirst⟩
      · right
        refine ⟨0, sid, q, rfl, ?_, hc.1, hc.2, ?_, ?_⟩
        · simp only [selLoop, if_pos hc]
          exact he
        · intro k p' hk
          cases k with
          | zero =>
            simp only [List.get?] at hk
            obtain rfl : (sid, q) = p' := by simpa using hk
            exact le_refl _
          | succ k =>
            simp only [List.get?] at hk
            have hmem : p' ∈ rest := List.get?_mem hk
            have := hnone p' hmem
            rcases not_and_or.mp this with h | h
            · exact le_of_not_lt h
            · exact le_trans (le_of_not_lt h) (le_of_lt hc.2)
        · intro k p' hk _
          omega
      · right
        refine ⟨j' + 1, sid', q', by simpa using hget, ?_, lt_trans hc.1 hlt, h7, ?_, ?_⟩
        · simp only [selLoop, if_pos hc]
          exact hres
        · intro k p' hk
          cases k with
          | zero =>
            simp only [List.get?] at hk
            obtain rfl : (sid, q) = p' := by simpa using hk
            exact le_of_lt hlt
          | succ k =>
            simp only [List.get?] at hk
            exact hall k p' hk
        · intro k p' hklt hk
          cases k with
          | zero =>
            simp only [List.get?] at hk
            obtain rfl : (sid, q) = p' := by simpa using hk
            exact hlt
          | succ k =>
            simp only [List.get?] at hk
            exact hfirst k p' (by omega) hk
    · rcases ih bm bs with ⟨he, hnone⟩ | ⟨j', sid', q', hget, hres, hlt, h7, hall, hfirst⟩
      · left
        refine ⟨?_, ?_⟩
        · simp only [selLoop, if_neg hc]
          exact he
        · intro p' hp'
          rcases List.mem_cons.mp hp' with rfl | hmem
          · exact hc
          · exact hnone p' hmem
      · right
        have hq_le : q < q' := by
          rcases not_and_or.mp hc with h | h
          · exact lt_of_le_of_lt (le_of_not_lt h) hlt
          · exact lt_of_le_of_lt (le_of_not_lt h) h7
        refine ⟨j' + 1, sid', q', by simpa using hget, ?_, hlt, h7, ?_, ?_⟩
        · simp only [selLoop, if_neg hc]
          exact hres
        · intro k p' hk
          cases k with
          | zero =>
            simp only [List.get?] at hk
            obtain rfl : (sid, q) = p' := by simpa using hk
            exact le_of_lt hq_le
          | succ k =>
            simp only [List.get?] at hk
            exact hall k p' hk
        · intro k p' hklt hk
          cases k with
          | zero =>
            simp only [List.get?] at hk
            obtain rfl : (sid, q) = p' := by simpa using hk
            exact hq_le
          | succ k =>
            simp only [List.get?] at hk
            exact hfirst k p' (by omega) hk

theorem zip_get?_eq_some {α β : Type} :
    ∀ (l1 : List α) (l2 : List β) (k : Nat) (p : α × β),
      (l1.zip l2).get? k = some p ↔ l1.get? k = some p.1 ∧ l2.get? k = some p.2 := by
  intro l1
  induction l1 with
  | nil => intro l2 k p; simp
  | cons a l1 ih =>
    intro l2 k p
    cases l2 with
    | nil => simp
    | cons b l2 =>
      cases k with
      | zero => simp [Prod.ext_iff]
      | succ k =>
        simpa only [List.zip_cons_cons, List.get?] using ih l2 k p

/-! ### Lemmas: association lists, facade operations, storage -/

theorem lookupEntry_setEntry_self {β : Type} :
    ∀ (m : List (String × β)) (k : String) (v : β),
      lookupEntry (setEntry m k v) k = some v := by
  intro m
  induction m with
  | nil => intro k v; simp [setEntry, lookupEntry]
  | cons p rest ih =>
    intro k v
    obtain ⟨k', v'⟩ := p
    simp only [setEntry]
    split
    case isTrue h => simp [lookupEntry]
    case isFalse h =>
      simp only [lookupEntry]
      rw [if_neg h]
      exact ih k v

theorem setEntry_mem {β : Type} :
    ∀ (m : List (String × β)) (k : String) (v : β), (k, v) ∈ setEntry m k v := by
  intro m
  induction m with
  | nil => intro k v; simp [setEntry]
  | cons p rest ih =>
    intro k v
    obtain ⟨k', v'⟩ := p
    simp only [setEntry]
    split
    case isTrue h => simp
    case isFalse h => exact List.mem_cons_of_mem _ (ih k v)

theorem updateSection_notFound (llm : LlmOutcome) (now : Nat) (cache : Cache) (fs : FS)
    (docId title content : String) (h : lookupEntry cache docId = none) :
    updateSection llm now cache fs docId title content = .error .documentNotFound := by
  simp only [updateSection, getDocument, h, exBind_error]

theorem updateSection_version (llm : LlmOutcome) (now : Nat) (cache : Cache) (fs : FS)
    (docId title content : String) (doc : DocumentContent)
    (hdoc : lookupEntry cache docId = some doc)
    (cache' : Cache) (fs' : FS) (sec : DocumentSection)
    (h : updateSection llm now cache fs docId title content = .ok (cache', fs', sec)) :
    ∃ doc', lookupEntry cache' docId = some doc' ∧ doc'.version = doc.version + 1 := by
  simp only [updateSection, getDocument, hdoc, exBind_ok] at h
  cases hm : findMostRelevantSection doc title content with
  | error e => rw [hm, exBind_error] at h; exact absurd h (by simp)
  | ok m =>
    rw [hm, exBind_ok, exPure] at h
    simp only [Except.ok.injEq, Prod.mk.injEq] at h
    obtain ⟨h1, _, _⟩ := h
    subst h1
    exact ⟨_, lookupEntry_setEntry_self cache docId _, rfl⟩

theorem updateSection_fallback (now : Nat) (cache : Cache) (fs : FS)
    (docId title content : String) (doc : DocumentContent) (sid : String) (s : ℚ)
    (sec0 : DocumentSection)
    (hdoc : lookupEntry cache docId = some doc)
    (hm : findMostRelevantSection doc title content = .ok (some sid, s))
    (hsid : sid ≠ "")
    (hlook : lookupEntry doc.sections sid = some sec0) :
    ∃ cache' fs' sec, updateSection .err now cache fs docId title content =
      .ok (cache', fs', sec) ∧ sec.title = title ∧ sec.content = content ∧
      sec.version = sec0.version + 1 := by
  simp only [updateSection, getDocument, hdoc, exBind_ok, hm, if_neg hsid, hlook, exPure]
  exact ⟨_, _, _, rfl, rfl, rfl, rfl⟩

theorem createDocument_spec (now : Nat) (cache : Cache) (fs : FS) (docId : String) :
    (createDocument now cache fs docId).2.2.sections = [] ∧
      lookupEntry (createDocument now cache fs docId).1 docId =
        some (createDocument now cache fs docId).2.2 ∧
      lookupEntry (createDocument now cache fs docId).2.1 (docPath docId) =
        some (.record (createDocument now cache fs docId).2.2) := by
  refine ⟨rfl, ?_, ?_⟩
  · exact lookupEntry_setEntry_self cache docId _
  · exact lookupEntry_setEntry_self _ (docPath docId) _

theorem loadDocument_saveDocument (fs : FS) (docId : String) (doc : DocumentContent) :
    loadDocument (saveDocument fs docId doc) docId = .ok (some doc) := by
  simp only [loadDocument, saveDocument, saveWrite, lookupEntry_setEntry_self]

theorem loadDocument_truncated (fs : FS) (docId : String) :
    loadDocument (saveTruncate fs docId) docId = .error .storageIoError := by
  simp only [loadDocument, saveTruncate, lookupEntry_setEntry_self]

theorem keepChar_ascii (c : Char) (h : c.toNat < 128) :
    keepChar c = true ↔
      (('A' ≤ c ∧ c ≤ 'Z') ∨ ('a' ≤ c ∧ c ≤ 'z') ∨ ('0' ≤ c ∧ c ≤ '9') ∨
        c = '-' ∨ c = '_' ∨ c = ' ') := by
  simp only [keepChar, pyIsAlnum, Bool.or_eq_true, decide_eq_true_eq]
  constructor
  · rintro ((hD | hU | hL | hLatin) | hd | hu | hsp)
    · tauto
    · tauto
    · tauto
    · exact absurd hLatin.1 (by omega)
    · tauto
    · tauto
    · tauto
  · rintro (hU | hL | hD | hd | hu | hsp) <;> tauto

theorem sanitize_ascii (docId : String) (h : ∀ c ∈ docId.data, c.toNat < 128) :
    sanitizeDocId docId = specSanitizeDocId docId := by
  simp only [sanitizeDocId, specSanitizeDocId]
  congr 1
  apply List.map_congr_left
  intro c hc
  by_cases hk : keepChar c = true
  · rw [if_pos hk, if_pos ((keepChar_ascii c (h c hc)).mp hk)]
  · rw [if_neg hk, if_neg (fun hs => hk ((keepChar_ascii c (h c hc)).mpr hs))]

theorem sanitizeDocId_no_dot (docId : String) : '.' ∉ (sanitizeDocId docId).data := by
  simp only [sanitizeDocId]
  intro hmem
  rcases List.mem_map.mp hmem with ⟨c, _, hc⟩
  split at hc
  case isTrue hkeep =>
    subst hc
    exact absurd hkeep (by decide)
  case isFalse hkeep => exact absurd hc (by decide)

theorem sanitizeDocId_length (docId : String) :
    (sanitizeDocId docId).data.length = docId.data.length := by
  simp [sanitizeDocId]

theorem sanitizeDocId_head_ne_dot (docId : String) :
    (sanitizeDocId docId).data.head? ≠ some '.' := by
  intro h
  apply sanitizeDocId_no_dot docId
  cases hd : (sanitizeDocId docId).data with
  | nil => rw [hd] at h; simp at h
  | cons c rest =>
    rw [hd] at h
    simp only [List.head?, Option.some.injEq] at h
    subst h
    exact List.mem_cons_self _ _

theorem sanitizeDocId_ne (docId : String)
    (h : ∃ c ∈ docId.data, ¬keepChar c = true) : sanitizeDocId docId ≠ docId := by
  obtain ⟨c, hmem, hc⟩ := h
  intro heq
  have hdata : docId.data.map (fun c => if keepChar c then c else '_') = docId.data :=
    congrArg String.data heq
  obtain ⟨i, hi⟩ := List.mem_iff_get?.mp hmem
  have h2 : (docId.data.map (fun c => if keepChar c then c else '_')).get? i =
      some (if keepChar c then c else '_') := by
    rw [List.get?_map, hi]
    rfl
  rw [hdata, hi, if_neg hc] at h2
  simp only [Option.some.injEq] at h2
  subst h2
  exact hc (by decide)

theorem lastDotIdx_no_dot : ∀ l : List Char, '.' ∉ l → lastDotIdx l = none := by
  intro l
  induction l with
  | nil => intro _; rfl
  | cons c rest ih =>
    intro h
    simp only [lastDotIdx, ih (fun hm => h (List.mem_cons_of_mem _ hm))]
    rw [if_neg (fun hc : c = '.' => h (by rw [hc]; exact List.mem_cons_self _ _))]

theorem lastDotIdx_append_json : ∀ l : List Char, '.' ∉ l →
    lastDotIdx (l ++ ".json".data) = some l.length := by
  intro l
  induction l with
  | nil => intro _; decide
  | cons c rest ih =>
    intro h
    have hrest : '.' ∉ rest := fun hm => h (List.mem_cons_of_mem _ hm)
    have hstep : lastDotIdx ((c :: rest) ++ ".json".data) =
        match lastDotIdx (rest ++ ".json".data) with
        | some i => some (i + 1)
        | none => if c = '.' then some 0 else none := rfl
    rw [hstep, ih hrest]
    rfl

theorem pathStem_docPath (docId : String) (hne : docId.data ≠ []) :
    pathStem (docPath docId) = sanitizeDocId docId := by
  have hnd := sanitizeDocId_no_dot docId
  have hdata : (docPath docId).data = (sanitizeDocId docId).data ++ ".json".data := rfl
  have hlen : 0 < (sanitizeDocId docId).data.length := by
    rw [sanitizeDocId_length]
    exact List.length_pos.mpr hne
  simp only [pathStem, hdata, lastDotIdx_append_json _ hnd]
  rw [if_pos ⟨hlen, by simp⟩, List.take_left]

theorem listDocuments_after_save (fs : FS) (docId : String) (doc : DocumentContent)
    (hne : docId.data ≠ []) :
    (sanitizeDocId docId, metadataMap doc) ∈ listDocuments (saveDocument fs docId doc) := by
  have hmem : (docPath docId, FileData.record doc) ∈ saveDocument fs docId doc :=
    setEntry_mem _ _ _
  apply List.mem_filterMap.mpr
  refine ⟨(docPath docId, .record doc), hmem, ?_⟩
  have hdata : (docPath docId).data = (sanitizeDocId docId).data ++ ".json".data := rfl
  have hsuf : ".json".data <:+ (docPath docId).data := ⟨(sanitizeDocId docId).data, hdata.symm⟩
  have hhead : (docPath docId).data.head? ≠ some '.' := by
    cases hd : (sanitizeDocId docId).data with
    | nil =>
      exfalso
      have := sanitizeDocId_length docId
      rw [hd] at this
      exact hne (List.length_eq_zero.mp this.symm)
    | cons c rest =>
      rw [hdata, hd]
      intro hcon
      apply sanitizeDocId_head_ne_dot docId
      rw [hd]
      simpa using hcon
  rw [if_pos ⟨hsuf, hhead⟩, pathStem_docPath docId hne]

/-! ### Claim theorems -/

/-- Claim C1 (code bug): the claim states that `update_section` on an
unknown `doc_id` creates the document implicitly and never raises a
document-not-found error.  The code contradicts it: `get_document`
raises `DocumentNotFoundError` instead of returning a falsy value, so
the implicit-creation branch in `update_section` is unreachable and the
error escapes.  This theorem evaluates the embedded `update_section` at
the failing input (empty cache, unknown `doc_id`). -/
theorem edison_c1 :
    updateSection .err 0 [] [] "doc1" "Introduction" "Hello world" =
      .error .documentNotFound := by
  rfl

/-- Claim C2 (code bug): the claim states that for `max_tokens` at least
the largest section's token count, `organize_sections` returns groups
whose concatenation is the full ordered section-id sequence with no id
dropped.  The code overwrites `current_section` instead of accumulating,
so on a document with two one-token sections and `max_tokens = 2048` it
returns only `["section_2"]`, dropping `section_1`.  This theorem
evaluates the embedded code at that failing input. -/
theorem edison_c2 :
    organizeSections
        [("doc1",
          { sections :=
              [("section_1", { title := "A", content := "x", contextTokens := some 1 }),
               ("section_2", { title := "B", content := "y", contextTokens := some 1 })] })]
        "doc1" 2048 = .ok (some ["section_2"]) ∧
      (["section_2"] : List String) ≠ ["section_1", "section_2"] := by
  decide

/-- Claim C3 counterexample: calling `create_document` on a `doc_id`
that already holds a document with a section silently deletes that
content — afterwards both the cache and the stored record hold a fresh
empty document, contrary to the claim that the previous sections are
still present. -/
theorem edison_c3_counterexample :
    lookupEntry (createDocument 7
        [("doc1",
          { sections := [("section_1", { title := "Intro", content := "Hello world" })],
            version := 3 })]
        [("doc1.json", FileData.record
          { sections := [("section_1", { title := "Intro", content := "Hello world" })],
            version := 3 })]
        "doc1").1 "doc1" =
      some { sections := [], createdAt := some 7, lastModified := some 7 } ∧
    lookupEntry (createDocument 7
        [("doc1",
          { sections := [("section_1", { title := "Intro", content := "Hello world" })],
            version := 3 })]
        [("doc1.json", FileData.record
          { sections := [("section_1", { title := "Intro", content := "Hello world" })],
            version := 3 })]
        "doc1").2.1 "doc1.json" =
      some (.record { sections := [], createdAt := some 7, lastModified := some 7 }) ∧
    ([("section_1", ({ title := "Intro", content := "Hello world" } : DocumentSection))] :
        List (String × DocumentSection)) ≠ [] := by
  decide

/-- Claim C3 (amended): `create_document` unconditionally builds a fresh
empty document and replaces whatever was cached and stored under the
`doc_id`; the recommended return-existing-unchanged behaviour is not
implemented, and prior sections are lost. -/
theorem edison_c3 (now : Nat) (cache : Cache) (fs : FS) (docId : String) :
    (createDocument now cache fs docId).2.2.sections = [] ∧
      lookupEntry (createDocument now cache fs docId).1 docId =
        some (createDocument now cache fs docId).2.2 ∧
      lookupEntry (createDocument now cache fs docId).2.1 (docPath docId) =
        some (.record (createDocument now cache fs docId).2.2) :=
  createDocument_spec now cache fs docId

/-- Claim C4 counterexample: when the merge call raises on a candidate
matched to an existing section, the resulting section's title is the
*candidate's* title (`"Intros"`), not the existing section's title
(`"Intro"`) as the claim states. -/
theorem edison_c4_counterexample :
    (updateSection .err 1
        [("doc1",
          { sections :=
              [("section_1",
                { title := "Intro", content := "hello world", contextTokens := some 2 })] })]
        [] "doc1" "Intros" "hello world").map (fun r => r.2.2.title) =
      .ok "Intros" ∧ ("Intros" : String) ≠ "Intro" := by
  with_unfolding_all decide

/-- Claim C4 (amended): when the external merge capability raises during
`update_section` on a candidate matched to an existing section, the
fallback sets *both* the section's title and its content to the new
candidate's values verbatim (the existing title is not kept), the
section version still increments, and no exception escapes
`update_section` from the merge step. -/
theorem edison_c4 (now : Nat) (cache : Cache) (fs : FS)
    (docId title content : String) (doc : DocumentContent) (sid : String) (s : ℚ)
    (sec0 : DocumentSection)
    (hdoc : lookupEntry cache docId = some doc)
    (hm : findMostRelevantSection doc title content = .ok (some sid, s))
    (hsid : sid ≠ "")
    (hlook : lookupEntry doc.sections sid = some sec0) :
    ∃ cache' fs' sec, updateSection .err now cache fs docId title content =
      .ok (cache', fs', sec) ∧ sec.title = title ∧ sec.content = content ∧
      sec.version = sec0.version + 1 :=
  updateSection_fallback now cache fs docId title content doc sid s sec0 hdoc hm hsid hlook

theorem edison_c4_witness :
    (updateSection .err 1
        [("doc1",
          { sections :=
              [("section_1",
                { title := "Intro", content := "hello world", contextTokens := some 2 })] })]
        [] "doc1" "Intros" "hello world").map
        (fun r => (r.2.2.title, r.2.2.content, r.2.2.version)) =
      .ok ("Intros", "hello world", 1) := by
  obtain ⟨cache', fs', sec, heq, ht, hc, hv⟩ :=
    edison_c4 1
      [("doc1",
        { sections :=
            [("section_1",
              { title := "Intro", content := "hello world", contextTokens := some 2 })] })]
      [] "doc1" "Intros" "hello world"
      { sections :=
          [("section_1",
            { title := "Intro", content := "hello world", contextTokens := some 2 })] }
      "section_1" (9 / 11)
      { title := "Intro", content := "hello world", contextTokens := some 2 }
      (by decide) (by with_unfolding_all decide) (by decide) (by decide)
  rw [heq]
  simp only [Except.map]
  rw [ht, hc, hv]

/-- Claim C5 counterexample: for a single-section document whose
combined score against the candidate is `4/25` (positive but below the
`0.7` threshold), `_find_most_relevant_section` returns `(none, 0.0)`
rather than the claimed maximum `(some "section_1", 4/25)`. -/
theorem edison_c5_counterexample :
    findMostRelevantSection
        { sections := [("section_1", { title := "abc", content := "xyz" })] }
        "abd" "qqq" = .ok (none, 0) ∧
      combinedScores [("section_1", { title := "abc", content := "xyz" })] "abd" "qqq" =
        .ok [4 / 25] ∧
      findMostRelevantSection
          { sections := [("section_1", { title := "abc", content := "xyz" })] }
          "abd" "qqq" ≠ .ok (some "section_1", 4 / 25) := by
  with_unfolding_all decide

/-- Claim C5 (amended): whenever all combined scores compute,
`_find_most_relevant_section` returns `(none, 0.0)` for a document with
no sections and also whenever no section's combined score exceeds the
`0.7` threshold; when some score exceeds `0.7` it returns the first
section attaining the maximal combined score, together with that score
(ties resolve to the first-encountered section in insertion order).  The
matcher is a pure function of the document. -/
theorem edison_c5 (doc : DocumentContent) (title content : String) (scores : List ℚ)
    (hs : combinedScores doc.sections title content = .ok scores) :
    ∃ bm bs, findMostRelevantSection doc title content = .ok (bm, bs) ∧
      (doc.sections = [] → bm = none ∧ bs = 0) ∧
      ((∀ q ∈ scores, q ≤ 7 / 10) → bm = none ∧ bs = 0) ∧
      (∀ i q0, scores.get? i = some q0 → 7 / 10 < q0 →
        ∃ j sid qj, scores.get? j = some qj ∧
          (doc.sections.get? j).map Prod.fst = some sid ∧
          bm = some sid ∧ bs = qj ∧
          (∀ k q', scores.get? k = some q' → q' ≤ qj) ∧
          (∀ k q', k < j → scores.get? k = some q' → q' < qj)) := by
  have hlen := combinedScores_length title content doc.sections scores hs
  have hfm : findMostRelevantSection doc title content =
      .ok (selLoop ((doc.sections.map Prod.fst).zip scores) (none, 0)) :=
    fmrsLoop_eq_selLoop title content doc.sections scores (none, 0) hs
  have hmap : ∀ k (q' : ℚ), scores.get? k = some q' →
      ∃ sidk, (doc.sections.map Prod.fst).get? k = some sidk := by
    intro k q' hk
    obtain ⟨hklt, -⟩ := List.get?_eq_some.mp hk
    have hk2 : k < (doc.sections.map Prod.fst).length := by
      rw [List.length_map]
      omega
    exact ⟨_, List.get?_eq_get hk2⟩
  rcases selLoop_spec ((doc.sections.map Prod.fst).zip scores) none 0 with
    ⟨he, hnone⟩ | ⟨j, sid, q, hget, hres, hlt, h7, hall, hfirst⟩
  · refine ⟨none, 0, by rw [hfm, he], fun _ => ⟨rfl, rfl⟩, fun _ => ⟨rfl, rfl⟩, ?_⟩
    intro i q0 hi h70
    exfalso
    obtain ⟨sidi, hsidi⟩ := hmap i q0 hi
    have hz : ((doc.sections.map Prod.fst).zip scores).get? i = some (sidi, q0) :=
      (zip_get?_eq_some _ _ i (sidi, q0)).mpr ⟨hsidi, hi⟩
    exact hnone _ (List.get?_mem hz) ⟨lt_trans (by norm_num) h70, h70⟩
  · have hbm : findMostRelevantSection doc title content = .ok (some sid, q) := by
      rw [hfm, hres]
    have hz := (zip_get?_eq_some _ _ j (sid, q)).mp hget
    refine ⟨some sid, q, hbm, ?_, ?_, ?_⟩
    · intro hnil
      rw [hnil] at hget
      simp at hget
    · intro hall7
      exact absurd (hall7 q (List.get?_mem hz.2)) (not_le.mpr h7)
    · intro i q0 hi h70
      refine ⟨j, sid, q, hz.2, ?_, rfl, rfl, ?_, ?_⟩
      · have hm1 := hz.1
        rw [List.get?_map] at hm1
        exact hm1
      · intro k q' hk
        obtain ⟨sidk, hsidk⟩ := hmap k q' hk
        exact hall k (sidk, q') ((zip_get?_eq_some _ _ k (sidk, q')).mpr ⟨hsidk, hk⟩)
      · intro k q' hklt hk
        obtain ⟨sidk, hsidk⟩ := hmap k q' hk
        exact hfirst k (sidk, q') hklt ((zip_get?_eq_some _ _ k (sidk, q')).mpr ⟨hsidk, hk⟩)

theorem edison_c5_witness :
    combinedScores [("section_1", { title := "abc", content := "xyz" })] "abd" "qqq" =
      .ok [4 / 25] ∧
    findMostRelevantSection
        { sections := [("section_1", { title := "abc", content := "xyz" })] }
        "abd" "qqq" = .ok (none, 0) := by
  obtain ⟨bm, bs, h1, -, h3, -⟩ :=
    edison_c5 { sections := [("section_1", { title := "abc", content := "xyz" })] }
      "abd" "qqq" [4 / 25] (by with_unfolding_all decide)
  obtain ⟨hbm, hbs⟩ := h3 (by with_unfolding_all decide)
  subst hbm
  subst hbs
  exact ⟨by with_unfolding_all decide, h1⟩

/-- Claim C6 counterexample: `DocumentWriterTool._calculate_similarity`
on two empty strings raises `ZeroDivisionError` (the token-overlap
denominator `max(len(tokens1), len(tokens2))` is zero), contradicting
the claim that the similarity function is total and never throws. -/
theorem edison_c6_counterexample :
    dwCalculateSimilarity "" "" = .error .zeroDivision := by
  decide

/-- Claim C6 (amended): `TextAnalyzer.calculate_similarity` is total,
returns a value in `[0, 1]`, and returns exactly `0.0` when either input
is empty.  `DocumentWriterTool._calculate_similarity`, however, raises
`ZeroDivisionError` exactly when both inputs normalise to texts with no
tokens (in particular when both are empty); whenever it returns, its
value lies in `[0, 1]`. -/
theorem edison_c6 (t1 t2 : String) :
    (0 ≤ taCalculateSimilarity t1 t2 ∧ taCalculateSimilarity t1 t2 ≤ 1) ∧
      (t1 = "" ∨ t2 = "" → taCalculateSimilarity t1 t2 = 0) ∧
      (dwCalculateSimilarity t1 t2 = .error .zeroDivision ↔
        pySplit (pyNormalize t1.data) = [] ∧ pySplit (pyNormalize t2.data) = []) ∧
      (∀ r, dwCalculateSimilarity t1 t2 = .ok r → 0 ≤ r ∧ r ≤ 1) :=
  ⟨taCalculateSimilarity_bounds t1 t2,
   fun h => taCalculateSimilarity_empty t1 t2 h,
   dwCalculateSimilarity_error_iff t1 t2,
   fun r h => dwCalculateSimilarity_ok_bounds t1 t2 r h⟩

theorem edison_c6_witness :
    taCalculateSimilarity "" "xyz" = 0 ∧
      (0 ≤ (2 / 5 : ℚ) ∧ (2 / 5 : ℚ) ≤ 1) ∧
      dwCalculateSimilarity "" "" = .error .zeroDivision :=
  ⟨(edison_c6 "" "xyz").2.1 (Or.inl rfl),
   (edison_c6 "abc" "abd").2.2.2 (2 / 5) (by with_unfolding_all decide),
   (edison_c6 "" "").2.2.1.mpr (by decide)⟩

/-- Claim C7 counterexample: a `save_document` whose underlying write
fails after `open("w")` has truncated the file leaves a record that a
subsequent `load_document` reports as a `StorageIOError` — the stored
record is neither the complete previous value nor the complete new
value, refuting the claimed atomic write-then-rename discipline. -/
theorem edison_c7_counterexample :
    loadDocument [("doc1.json", FileData.record { version := 5 })] "doc1" =
      .ok (some { version := 5 }) ∧
    loadDocument (saveDocument [("doc1.json", FileData.record { version := 5 })] "doc1"
        { version := 6 }) "doc1" = .ok (some { version := 6 }) ∧
    loadDocument ((saveDocumentRun [("doc1.json", FileData.record { version := 5 })] "doc1"
        { version := 6 } .failAfterTruncate).1) "doc1" = .error .storageIoError ∧
    (Except.error .storageIoError : Except PyError (Option DocumentContent)) ≠
      .ok (some { version := 5 }) ∧
    (Except.error .storageIoError : Except PyError (Option DocumentContent)) ≠
      .ok (some { version := 6 }) := by
  decide

/-- Claim C7 (amended): a failing write inside `save_document` does
raise `StorageIOError`, but the code writes in place (`open("w")`
truncates, then `json.dump` writes), with no write-then-rename;
a failure after the truncation leaves an unparseable record, so a
subsequent `load_document` raises `StorageIOError` instead of observing
either the previous or the new complete value.  A completed save is
observed in full by a subsequent load. -/
theorem edison_c7 (fs : FS) (docId : String) (doc : DocumentContent) :
    (saveDocumentRun fs docId doc .ok).2 = .ok () ∧
      (saveDocumentRun fs docId doc .failAfterTruncate).2 = .error .storageIoError ∧
      loadDocument (saveDocumentRun fs docId doc .ok).1 docId = .ok (some doc) ∧
      loadDocument (saveDocumentRun fs docId doc .failAfterTruncate).1 docId =
        .error .storageIoError :=
  ⟨rfl, rfl, loadDocument_saveDocument fs docId doc, loadDocument_truncated fs docId⟩

/-- Claim C8 (confirmed): every successful `update_section` call
increments `document.version` by exactly one, regardless of whether it
created a new section or merged into an existing one (the embedded
`updateSection` covers both branches and every LLM outcome). -/
theorem edison_c8 (llm : LlmOutcome) (now : Nat) (cache : Cache) (fs : FS)
    (docId title content : String) (doc : DocumentContent)
    (hdoc : lookupEntry cache docId = some doc)
    (cache' : Cache) (fs' : FS) (sec : DocumentSection)
    (h : updateSection llm now cache fs docId title content = .ok (cache', fs', sec)) :
    ∃ doc', lookupEntry cache' docId = some doc' ∧ doc'.version = doc.version + 1 :=
  updateSection_version llm now cache fs docId title content doc hdoc cache' fs' sec h

theorem edison_c8_witness :
    ∃ doc',
      lookupEntry
          [("doc1",
            ({ sections :=
                [("section_1",
                  { title := "Intro", content := "Hello", lastModified := some 3,
                    contextTokens := some 1 })],
               version := 1, lastModified := some 3 } : DocumentContent))]
          "doc1" = some doc' ∧
        doc'.version = ({} : DocumentContent).version + 1 :=
  edison_c8 .err 3 [("doc1", {})] [] "doc1" "Intro" "Hello" {} (by decide)
    [("doc1",
      { sections :=
          [("section_1",
            { title := "Intro", content := "Hello", lastModified := some 3,
              contextTokens := some 1 })],
        version := 1, lastModified := some 3 })]
    [("doc1.json",
      FileData.record
        { sections :=
            [("section_1",
              { title := "Intro", content := "Hello", lastModified := some 3,
                contextTokens := some 1 })],
          version := 1, lastModified := some 3 })]
    { title := "Intro", content := "Hello", lastModified := some 3, contextTokens := some 1 }
    (by decide)

/-- Claim C9 counterexample: `str.isalnum` is the Unicode predicate, so
the sanitizer *keeps* `é` (a non-ASCII letter outside the claimed class
`[A-Za-z0-9-_ ]`) instead of replacing it with `_` as the claim
requires. -/
theorem edison_c9_counterexample :
    sanitizeDocId "é" = "é" ∧ specSanitizeDocId "é" = "_" ∧ ("é" : String) ≠ "_" := by
  decide

/-- Claim C9 (amended): the sanitizer keeps characters that are
Python-alphanumeric (a Unicode class) or in `"-_ "` and replaces the
rest with `_`; restricted to ASCII doc_ids this coincides with the
claimed class `[A-Za-z0-9-_ ]`.  The same `_get_doc_path`
transformation is used by save and load, so a document saved under any
doc_id is found again by a load with the same doc_id. -/
theorem edison_c9 :
    (∀ docId : String, (∀ c ∈ docId.data, c.toNat < 128) →
        sanitizeDocId docId = specSanitizeDocId docId) ∧
      (∀ (fs : FS) (docId : String) (doc : DocumentContent),
        loadDocument (saveDocument fs docId doc) docId = .ok (some doc)) ∧
      (∀ docId : String, docPath docId = sanitizeDocId docId ++ ".json") :=
  ⟨sanitize_ascii, fun fs docId doc => loadDocument_saveDocument fs docId doc, fun _ => rfl⟩

theorem edison_c9_witness :
    sanitizeDocId "a/b" = specSanitizeDocId "a/b" ∧
      loadDocument (saveDocument [] "a/b" {}) "a/b" = .ok (some {}) :=
  ⟨edison_c9.1 "a/b" (by decide), edison_c9.2.1 [] "a/b" {}⟩

/-- Claim C10 (confirmed): the keys returned by `list_documents` are the
sanitized file stems: a document saved under a doc_id containing at
least one replaced character appears in the listing under the
transformed name, which differs from the original doc_id. -/
theorem edison_c10 (fs : FS) (docId : String) (doc : DocumentContent)
    (h : ∃ c ∈ docId.data, ¬keepChar c = true) :
    (sanitizeDocId docId, metadataMap doc) ∈ listDocuments (saveDocument fs docId doc) ∧
      sanitizeDocId docId ≠ docId := by
  have hne : docId.data ≠ [] := by
    obtain ⟨c, hc, -⟩ := h
    intro h0
    rw [h0] at hc
    simp at hc
  exact ⟨listDocuments_after_save fs docId doc hne, sanitizeDocId_ne docId h⟩

theorem edison_c10_witness :
    (sanitizeDocId "a/b", metadataMap {}) ∈ listDocuments (saveDocument [] "a/b" {}) ∧
      sanitizeDocId "a/b" ≠ "a/b" :=
  edison_c10 [] "a/b" {} (by decide)
end Edison
